import Mathlib

/-!
Shallow embedding of the `image-debug-utils` contour post-processing library.

Machine integers (`i32`, `u32`, `usize`) are modelled as `ℤ` / `ℕ`.
Floating point values that the code only ever fills with exactly representable
quantities (integer differences, squared lengths, thresholds) are modelled as
exact rationals `ℚ`; the square roots taken by the code are modelled as exact
real numbers via `Real.sqrt`.  The external `imageproc::geometry::min_area_rect`
primitive is an abstract parameter, as the specification treats it as an
external collaborator.
-/

/-- A 2D point with `i32` coordinates, modelling `imageproc::point::Point<i32>`. -/
structure Pt where
  x : ℤ
  y : ℤ
deriving DecidableEq

/-- Border classification of a contour, modelling `imageproc::contours::BorderType`. -/
inductive BorderType where
  | Outer
  | Hole
deriving DecidableEq

/-- A contour, modelling `imageproc::contours::Contour<i32>`: an ordered point list,
a border classification and an optional parent index into the owning hierarchy. -/
structure Contour where
  points : List Pt
  border_type : BorderType
  parent : Option ℕ
deriving DecidableEq

/-- The four ordered vertices returned by the external minimum-area-rectangle
primitive (`min_area_rect` returns `[Point<i32>; 4]`). -/
structure RectPts where
  v0 : Pt
  v1 : Pt
  v2 : Pt
  v3 : Pt

/-- Type of the external `imageproc::geometry::min_area_rect` collaborator,
kept abstract: it maps a point list to four ordered rectangle vertices. -/
def MinAreaRect : Type := List Pt → RectPts

/-- The `distance_squared` closure of `remove_hypotenuse_in_place` in
`src/contours.rs`: `dx*dx + dy*dy` where `dx = (p1.x - p2.x) as f32` and
`dy = (p1.y - p2.y) as f32`, taken at its exact rational value. -/
def distance_squared (p1 p2 : Pt) : ℚ :=
  ((p1.x - p2.x : ℤ) : ℚ) * ((p1.x - p2.x : ℤ) : ℚ)
    + ((p1.y - p2.y : ℤ) : ℚ) * ((p1.y - p2.y : ℤ) : ℚ)

/-- The aspect-ratio comparison of `remove_hypotenuse_in_place`:
`(if side1_squared > side2_squared then (s1/s2).sqrt() else (s2/s1).sqrt()) < max_aspect_ratio`,
read in exact real arithmetic. -/
def aspect_ratio_lt (side1_squared side2_squared max_aspect_ratio : ℚ) : Prop :=
  (if side1_squared > side2_squared then
      Real.sqrt ((side1_squared : ℝ) / (side2_squared : ℝ))
    else
      Real.sqrt ((side2_squared : ℝ) / (side1_squared : ℝ)))
    < (max_aspect_ratio : ℝ)

/-- The square-root comparison is equivalent to a rational comparison, which
makes the aspect-ratio test decidable (and hence executable). -/
theorem aspect_ratio_lt_iff (s1 s2 r : ℚ) :
    aspect_ratio_lt s1 s2 r ↔ 0 < r ∧ (if s1 > s2 then s1 / s2 else s2 / s1) < r ^ 2 := by
  have hsq : (if s1 > s2 then Real.sqrt ((s1 : ℝ) / (s2 : ℝ))
        else Real.sqrt ((s2 : ℝ) / (s1 : ℝ)))
      = Real.sqrt (((if s1 > s2 then s1 / s2 else s2 / s1) : ℚ) : ℝ) := by
    split_ifs <;> push_cast <;> rfl
  unfold aspect_ratio_lt
  rw [hsq]
  constructor
  · intro h
    have hr : 0 < r := by
      have h0 : (0 : ℝ) ≤ Real.sqrt (((if s1 > s2 then s1 / s2 else s2 / s1) : ℚ) : ℝ) :=
        Real.sqrt_nonneg _
      have hR : (0 : ℝ) < (r : ℝ) := lt_of_le_of_lt h0 h
      exact_mod_cast hR
    refine ⟨hr, ?_⟩
    have hrR : (0 : ℝ) < (r : ℝ) := by exact_mod_cast hr
    have h2 := (Real.sqrt_lt' hrR).mp h
    exact_mod_cast h2
  · rintro ⟨hr, h2⟩
    have hrR : (0 : ℝ) < (r : ℝ) := by exact_mod_cast hr
    refine (Real.sqrt_lt' hrR).mpr ?_
    exact_mod_cast h2

instance aspect_ratio_lt_decidable (s1 s2 r : ℚ) : Decidable (aspect_ratio_lt s1 s2 r) :=
  decidable_of_iff (0 < r ∧ (if s1 > s2 then s1 / s2 else s2 / s1) < r ^ 2)
    (aspect_ratio_lt_iff s1 s2 r).symm

/-- The `retain` closure of `remove_hypotenuse_in_place`: keep a contour when
its border type matches the optional filter, it has at least 4 points, neither
squared side of its minimum-area rectangle is below `1e-6`, and the aspect
ratio is strictly below `max_aspect_ratio`.  (The sequential early returns of
the Rust closure are rendered as short-circuit conjunction.) -/
def retain_contour (mar : MinAreaRect) (max_aspect_ratio : ℚ)
    (border_type : Option BorderType) (contour : Contour) : Bool :=
  (match border_type with
    | some required_type => contour.border_type == required_type
    | none => true)
  && decide (4 ≤ contour.points.length)
  && (let rect_points := mar contour.points
      let side1_squared := distance_squared rect_points.v0 rect_points.v1
      let side2_squared := distance_squared rect_points.v1 rect_points.v2
      !(decide (side1_squared < 1 / 1000000) || decide (side2_squared < 1 / 1000000))
      && decide (aspect_ratio_lt side1_squared side2_squared max_aspect_ratio))

/-- An `f32` value as used for the `max_aspect_ratio` argument: a finite value
(modelled exactly as a rational) or one of the non-finite IEEE values. -/
inductive F32 where
  | val (q : ℚ)
  | inf
  | negInf
  | nan
deriving DecidableEq

/-- Rust `f32::is_finite`. -/
def F32.is_finite : F32 → Bool
  | .val _ => true
  | _ => false

/-- The comparison `max_aspect_ratio > 0.0` on an `f32` (false on NaN). -/
def F32.gt_zero : F32 → Bool
  | .val q => decide (0 < q)
  | .inf => true
  | .negInf => false
  | .nan => false

/-- Finite payload of an `F32` (only meaningful when `is_finite`). -/
def F32.toRat : F32 → ℚ
  | .val q => q
  | _ => 0

/-- `remove_hypotenuse_in_place` from `src/contours.rs`.  The `assert!` that
`max_aspect_ratio` is a positive finite number is modelled by returning `none`
(the panic); otherwise the contour vector is filtered in place by the
`retain` closure. -/
def remove_hypotenuse_in_place (mar : MinAreaRect) (contours : List Contour)
    (max_aspect_ratio : F32) (border_type : Option BorderType) : Option (List Contour) :=
  if max_aspect_ratio.is_finite && max_aspect_ratio.gt_zero then
    some (contours.filter (retain_contour mar max_aspect_ratio.toRat border_type))
  else
    none

/-- Exact-real value of one `dx.hypot(dy)` term in `sort_by_perimeters_owned`:
`dx = p2.x - p1.x`, `dy = p2.y - p1.y` converted to `f64`. -/
noncomputable def hypot_dist (p1 p2 : Pt) : ℝ :=
  Real.sqrt (((p2.x - p1.x : ℤ) : ℝ) ^ 2 + ((p2.y - p1.y : ℤ) : ℝ) ^ 2)

/-- Perimeter of one contour as computed in `sort_by_perimeters_owned`:
`points.iter().zip(points.iter().cycle().skip(1))` pairs each point with its
cyclic successor, rendered as `zip points (points.rotate 1)`, and the
Euclidean edge lengths are summed. -/
noncomputable def perimeter (contour : Contour) : ℝ :=
  ((contour.points.zip (contour.points.rotate 1)).map fun p => hypot_dist p.1 p.2).sum

/-- `sort_by_perimeters_owned` from `src/contours.rs`: pair every contour with
its perimeter and sort by perimeter in descending order
(`sort_unstable_by(|a, b| b.1.total_cmp(&a.1))`, modelled by a sort with the
relation `b.2 ≤ a.2`). -/
noncomputable def sort_by_perimeters_owned (contours : List Contour) : List (Contour × ℝ) :=
  @List.insertionSort (Contour × ℝ) (fun a b => b.2 ≤ a.2)
    (fun a b => Real.decidableLE b.2 a.2)
    (contours.map fun contour => (contour, perimeter contour))

/-- First pass of `sort_by_direct_children_count_owned`: a `vec![0; len]`
array of counts, incrementing `counts[parent]` for every contour with a
parent.  The bound-checked `get_mut` is modelled by `List.modify`, which
leaves the list unchanged on an out-of-range index. -/
def child_counts (contours : List Contour) : List ℕ :=
  contours.foldl
    (fun counts contour =>
      match contour.parent with
      | some parent_index => counts.modify (· + 1) parent_index
      | none => counts)
    (List.replicate contours.length 0)

/-- `sort_by_direct_children_count_owned` from `src/contours.rs`: pair each
contour with its direct-child count by original position, then sort descending
by count (`sort_unstable_by(|a, b| b.1.cmp(&a.1))`). -/
def sort_by_direct_children_count_owned (contours : List Contour) : List (Contour × ℕ) :=
  if contours.isEmpty then []
  else
    List.insertionSort (fun a b => b.2 ≤ a.2)
      (contours.enum.map fun ic => (ic.2, (child_counts contours).getD ic.1 0))

/-- A floating-point coordinate as consumed by `to_axis_aligned_bounding_box`:
a finite value (modelled exactly as a rational) or NaN. -/
inductive FQ where
  | val (q : ℚ)
  | nan
deriving DecidableEq

/-- PartialOrd `<` on floating coordinates: any comparison involving NaN is false. -/
def FQ.lt : FQ → FQ → Bool
  | .val a, .val b => decide (a < b)
  | _, _ => false

/-- A point with floating coordinates, modelling `imageproc::point::Point<T>`
for a floating `T` as accepted by `to_axis_aligned_bounding_box`. -/
structure PtF where
  x : FQ
  y : FQ
deriving DecidableEq

/-- `image::math::Rect`: non-negative position and size (`u32` fields). -/
structure Rect where
  x : ℕ
  y : ℕ
  width : ℕ
  height : ℕ
deriving DecidableEq

/-- Truncation of a rational toward zero, as performed by the float-to-integer
conversion underlying `num_traits::ToPrimitive::to_u32`. -/
def rat_trunc (q : ℚ) : ℤ :=
  if 0 ≤ q then Rat.floor q else -Rat.floor (-q)

/-- The external `num_traits::ToPrimitive::to_u32` conversion on a coordinate:
truncate toward zero and return the result when it fits in `u32`
(equivalently, when the value lies in the open interval `(-1, 2^32)`);
`none` on NaN or an out-of-range value. -/
def FQ.to_u32 : FQ → Option ℕ
  | .val q =>
      if 0 ≤ rat_trunc q ∧ rat_trunc q < 2 ^ 32 then some (rat_trunc q).toNat else none
  | .nan => none

/-- Running extremes of the vertex scan in `to_axis_aligned_bounding_box`. -/
@[ext]
structure Extremes where
  min_x : FQ
  max_x : FQ
  min_y : FQ
  max_y : FQ
deriving DecidableEq

/-- One iteration of the scan loop of `to_axis_aligned_bounding_box`: the four
`if` statements updating `min_x`, `max_x`, `min_y`, `max_y` with PartialOrd
comparisons (`p.x > max_x` is `max_x < p.x`). -/
def scan_step (acc : Extremes) (p : PtF) : Extremes :=
  let acc1 : Extremes :=
    if FQ.lt p.x acc.min_x then ⟨p.x, acc.max_x, acc.min_y, acc.max_y⟩ else acc
  let acc2 : Extremes :=
    if FQ.lt acc1.max_x p.x then ⟨acc1.min_x, p.x, acc1.min_y, acc1.max_y⟩ else acc1
  let acc3 : Extremes :=
    if FQ.lt p.y acc2.min_y then ⟨acc2.min_x, acc2.max_x, p.y, acc2.max_y⟩ else acc2
  if FQ.lt acc3.max_y p.y then ⟨acc3.min_x, acc3.max_x, acc3.min_y, p.y⟩ else acc3

/-- The extremes of the four vertices: initialise from `vertices[0]` and scan
the remaining three points. -/
def scan_extremes (p0 p1 p2 p3 : PtF) : Extremes :=
  [p1, p2, p3].foldl scan_step ⟨p0.x, p0.x, p0.y, p0.y⟩

/-- `to_axis_aligned_bounding_box` from `src/rect.rs`: scan the four vertices
for extremes, convert with `to_u32().unwrap_or(0)`, and compute width and
height by saturating subtraction (`ℕ` subtraction). -/
def to_axis_aligned_bounding_box (p0 p1 p2 p3 : PtF) : Rect :=
  let e := scan_extremes p0 p1 p2 p3
  let x := e.min_x.to_u32.getD 0
  let y := e.min_y.to_u32.getD 0
  let width := e.max_x.to_u32.getD 0 - x
  let height := e.max_y.to_u32.getD 0 - y
  ⟨x, y, width, height⟩

/-- A point with finite rational coordinates, used to state claims about
`to_axis_aligned_bounding_box` on NaN-free input. -/
structure PtQ where
  x : ℚ
  y : ℚ
deriving DecidableEq

/-- Injection of a finite rational point into floating coordinates. -/
def PtQ.toF (p : PtQ) : PtF := ⟨.val p.x, .val p.y⟩

/-- Modelled from the claim's wording in C5: convert each extreme coordinate
to a non-negative integer by truncation toward zero with negative values
clamped to 0 (`Int.toNat`), and compute width and height by saturating
subtraction of clamped max minus clamped min. -/
def axis_aligned_bounds_claim (p0 p1 p2 p3 : PtQ) : Rect :=
  let mnx := min (min (min p0.x p1.x) p2.x) p3.x
  let mxx := max (max (max p0.x p1.x) p2.x) p3.x
  let mny := min (min (min p0.y p1.y) p2.y) p3.y
  let mxy := max (max (max p0.y p1.y) p2.y) p3.y
  let x := (rat_trunc mnx).toNat
  let y := (rat_trunc mny).toNat
  ⟨x, y, (rat_trunc mxx).toNat - x, (rat_trunc mxy).toNat - y⟩

/-- An 8-bit RGBA color, modelling `image::Rgba<u8>`. -/
structure Rgba where
  r : ℕ
  g : ℕ
  b : ℕ
  a : ℕ
deriving DecidableEq

/-- Type of the external `palette` HSL→sRGB conversion collaborator, kept
abstract: hue, saturation and lightness in, 8-bit RGB channels out. -/
def HslToSrgb : Type := ℚ → ℚ → ℚ → ℕ × ℕ × ℕ

/-- `generate_contrasting_colors` from `src/colors.rs`: for each index `i`
below `n`, hue `i * 360 / n` at saturation `0.9` and lightness `0.5` is
converted to sRGB and paired with the supplied alpha. -/
def generate_contrasting_colors (from_color : HslToSrgb) (n : ℕ) (alpha : ℕ) : List Rgba :=
  (List.range n).map fun (i : ℕ) =>
    let hue : ℚ := ((i : ℚ) * 360) / (n : ℚ)
    let srgb := from_color hue (9 / 10) (1 / 2)
    ⟨srgb.1, srgb.2.1, srgb.2.2, alpha⟩

/-- Truncation toward zero agrees with floor on non-negative values and with
ceil on negative values. -/
theorem rat_trunc_eq (q : ℚ) : rat_trunc q = if 0 ≤ q then ⌊q⌋ else ⌈q⌉ := by
  have h1 : ∀ a : ℚ, Rat.floor a = ⌊a⌋ := fun a => by rw [Rat.floor_def' a, Rat.floor_def]
  unfold rat_trunc
  split_ifs with h
  · rw [h1]
  · rw [h1, Int.floor_neg, neg_neg]

/-- A constant stand-in for the external minimum-area-rectangle primitive,
used to instantiate universally quantified theorems at concrete inputs. -/
def mar_unit_square : MinAreaRect := fun _ => ⟨⟨0, 0⟩, ⟨10, 0⟩, ⟨10, 10⟩, ⟨0, 10⟩⟩

/-- The axis-aligned 10×10 square contour of the Rust test suite. -/
def square_contour : Contour :=
  ⟨[⟨10, 10⟩, ⟨20, 10⟩, ⟨20, 20⟩, ⟨10, 20⟩], BorderType.Outer, none⟩

/-- A constant stand-in for the external HSL→sRGB conversion. -/
def hsl_const : HslToSrgb := fun _ _ _ => (0, 0, 0)

/-- C9: `generate_contrasting_colors` returns exactly `n` colors for every
`n ≥ 0` and every alpha; `n = 0` gives the empty sequence; and every returned
color carries exactly the supplied alpha value. -/
theorem generate_colors_count_alpha (from_color : HslToSrgb) (n alpha : ℕ) :
    (generate_contrasting_colors from_color n alpha).length = n
    ∧ generate_contrasting_colors from_color 0 alpha = []
    ∧ ∀ c ∈ generate_contrasting_colors from_color n alpha, c.a = alpha := by
  refine ⟨?_, by simp [generate_contrasting_colors], ?_⟩
  · unfold generate_contrasting_colors
    rw [List.length_map, List.length_range]
  intro c hc
  simp only [generate_contrasting_colors, List.mem_map, List.mem_range] at hc
  obtain ⟨i, _, rfl⟩ := hc
  rfl

theorem generate_colors_count_alpha_witness :
    (⟨0, 0, 0, 7⟩ : Rgba) ∈ generate_contrasting_colors hsl_const 2 7
    ∧ (⟨0, 0, 0, 7⟩ : Rgba).a = 7 :=
  ⟨by decide, (generate_colors_count_alpha hsl_const 2 7).2.2 ⟨0, 0, 0, 7⟩ (by decide)⟩

/-- C6: `remove_hypotenuse_in_place` hits its `assert!` (modelled by `none`)
exactly when `max_aspect_ratio` is not a finite strictly positive value, and
for every finite strictly positive value it returns normally whatever the
contour data. -/
theorem remove_hypotenuse_panic_iff (mar : MinAreaRect) (contours : List Contour)
    (max_aspect_ratio : F32) (border_type : Option BorderType) :
    (remove_hypotenuse_in_place mar contours max_aspect_ratio border_type = none
      ↔ ¬ ∃ q : ℚ, max_aspect_ratio = F32.val q ∧ 0 < q)
    ∧ ∀ q : ℚ, 0 < q →
        (remove_hypotenuse_in_place mar contours (F32.val q) border_type).isSome = true := by
  constructor
  · cases max_aspect_ratio with
    | val q =>
        by_cases hq : 0 < q <;>
          simp [remove_hypotenuse_in_place, F32.is_finite, F32.gt_zero, hq]
    | inf => simp [remove_hypotenuse_in_place, F32.is_finite]
    | negInf => simp [remove_hypotenuse_in_place, F32.is_finite]
    | nan => simp [remove_hypotenuse_in_place, F32.is_finite]
  · intro q hq
    simp [remove_hypotenuse_in_place, F32.is_finite, F32.gt_zero, hq]

theorem remove_hypotenuse_panic_iff_witness :
    (0 : ℚ) < 5
    ∧ (remove_hypotenuse_in_place mar_unit_square [] (F32.val 5) none).isSome = true :=
  ⟨by decide, (remove_hypotenuse_panic_iff mar_unit_square [] (F32.val 5) none).2 5 (by decide)⟩

/-- C8: for a finite positive aspect-ratio bound the filtered vector is a
sublist of the input — survivors keep their relative order and each survivor
is exactly (points, border type, parent included) the contour it was before
the call. -/
theorem filter_in_place_sublist (mar : MinAreaRect) (contours : List Contour)
    (q : ℚ) (hq : 0 < q) (border_type : Option BorderType) :
    ∃ survivors : List Contour,
      remove_hypotenuse_in_place mar contours (F32.val q) border_type = some survivors
      ∧ survivors.Sublist contours := by
  refine ⟨contours.filter (retain_contour mar q border_type), ?_, List.filter_sublist _⟩
  simp [remove_hypotenuse_in_place, F32.is_finite, F32.gt_zero, hq, F32.toRat]

theorem filter_in_place_sublist_witness :
    (0 : ℚ) < 5
    ∧ ∃ survivors,
        remove_hypotenuse_in_place mar_unit_square [square_contour] (F32.val 5) none
          = some survivors
        ∧ survivors.Sublist [square_contour] :=
  ⟨by decide, filter_in_place_sublist mar_unit_square [square_contour] 5 (by decide) none⟩

/-- C3: the output of `sort_by_perimeters_owned` is descending in the attached
perimeter: every earlier entry's perimeter is at least every later entry's. -/
theorem sort_by_perimeters_descending (contours : List Contour) :
    List.Pairwise (fun a b : Contour × ℝ => b.2 ≤ a.2) (sort_by_perimeters_owned contours) := by
  have h := @List.sorted_insertionSort (Contour × ℝ) (fun a b => b.2 ≤ a.2)
    (fun a b => Real.decidableLE b.2 a.2)
    ⟨fun a b => le_total b.2 a.2⟩
    ⟨fun a b c h1 h2 => le_trans h2 h1⟩
    (contours.map fun contour => (contour, perimeter contour))
  exact h

/-- The branching aspect-ratio expression of the code equals the max/min form
used by the specification. -/
theorem aspect_ratio_lt_max_min (s1 s2 r : ℚ) :
    aspect_ratio_lt s1 s2 r
      ↔ Real.sqrt (((max s1 s2 / min s1 s2 : ℚ) : ℝ)) < (r : ℝ) := by
  unfold aspect_ratio_lt
  rcases lt_or_le s2 s1 with h | h
  · rw [if_pos h, max_eq_left h.le, min_eq_right h.le]
    push_cast
    exact Iff.rfl
  · rw [if_neg (not_lt.mpr h), max_eq_right h, min_eq_left h]
    push_cast
    exact Iff.rfl

/-- C1: with a finite positive `max_aspect_ratio`, `remove_hypotenuse_in_place`
filters by the `retain` closure, and the closure keeps a contour exactly when
the border type matches any supplied filter, the contour has at least 4
points, both squared adjacent-edge lengths of its minimum-area rectangle are
at least `1e-6`, and `sqrt(max(len1sq, len2sq) / min(len1sq, len2sq))` is
strictly below `max_aspect_ratio` (equality is rejected). -/
theorem retain_iff_aspect_bounds (mar : MinAreaRect) (max_aspect_ratio : ℚ)
    (hr : 0 < max_aspect_ratio) (border_type : Option BorderType)
    (contours : List Contour) (contour : Contour) :
    remove_hypotenuse_in_place mar contours (F32.val max_aspect_ratio) border_type
        = some (contours.filter (retain_contour mar max_aspect_ratio border_type))
    ∧ (retain_contour mar max_aspect_ratio border_type contour = true ↔
        (∀ required ∈ border_type, contour.border_type = required)
        ∧ 4 ≤ contour.points.length
        ∧ 1 / 1000000 ≤ distance_squared (mar contour.points).v0 (mar contour.points).v1
        ∧ 1 / 1000000 ≤ distance_squared (mar contour.points).v1 (mar contour.points).v2
        ∧ Real.sqrt
            (((max (distance_squared (mar contour.points).v0 (mar contour.points).v1)
                  (distance_squared (mar contour.points).v1 (mar contour.points).v2)
                / min (distance_squared (mar contour.points).v0 (mar contour.points).v1)
                  (distance_squared (mar contour.points).v1 (mar contour.points).v2) : ℚ) : ℝ))
          < (max_aspect_ratio : ℝ)) := by
  constructor
  · simp [remove_hypotenuse_in_place, F32.is_finite, F32.gt_zero, hr, F32.toRat]
  · unfold retain_contour
    simp only [Bool.and_eq_true, Bool.not_eq_true', Bool.or_eq_false_iff,
      decide_eq_true_eq, decide_eq_false_iff_not, not_lt, and_assoc]
    constructor
    · rintro ⟨hb, hlen, hs1, hs2, hasp⟩
      refine ⟨?_, hlen, hs1, hs2, (aspect_ratio_lt_max_min _ _ _).mp hasp⟩
      intro required hreq
      cases border_type with
      | none => cases hreq
      | some t =>
          cases hreq
          simpa [beq_iff_eq] using hb
    · rintro ⟨hb, hlen, hs1, hs2, hasp⟩
      refine ⟨?_, hlen, hs1, hs2, (aspect_ratio_lt_max_min _ _ _).mpr hasp⟩
      cases border_type with
      | none => rfl
      | some t => simpa [beq_iff_eq] using hb t rfl

theorem retain_iff_aspect_bounds_witness :
    remove_hypotenuse_in_place mar_unit_square [] (F32.val 5) none = some [] := by
  have h := (retain_iff_aspect_bounds mar_unit_square 5 (by decide) none [] square_contour).1
  simpa using h


/-- The square root of 100 is 10, used for the concrete perimeter examples. -/
theorem sqrt_hundred : Real.sqrt 100 = 10 := by
  rw [show (100 : ℝ) = 10 ^ 2 by norm_num]
  exact Real.sqrt_sq (by norm_num)

/-- C2: `sort_by_perimeters_owned` pairs every contour with the wrap-around
sum of Euclidean edge lengths; contours with 0 or 1 points get perimeter 0;
the 2-point contour (0,0),(10,0) gets 20 (there and back); the square
(0,0),(10,0),(10,10),(0,10) gets 40. -/
theorem perimeter_pairs_spec :
    (∀ contours : List Contour,
        (sort_by_perimeters_owned contours).Perm
          (contours.map fun contour => (contour, perimeter contour)))
    ∧ (∀ contour : Contour, contour.points.length ≤ 1 → perimeter contour = 0)
    ∧ perimeter ⟨[⟨0, 0⟩, ⟨10, 0⟩], BorderType.Outer, none⟩ = 20
    ∧ perimeter ⟨[⟨0, 0⟩, ⟨10, 0⟩, ⟨10, 10⟩, ⟨0, 10⟩], BorderType.Outer, none⟩ = 40 := by
  refine ⟨?_, ?_, ?_, ?_⟩
  · intro contours
    exact @List.perm_insertionSort (Contour × ℝ) (fun a b => b.2 ≤ a.2)
      (fun a b => Real.decidableLE b.2 a.2)
      (contours.map fun contour => (contour, perimeter contour))
  · rintro ⟨pts, bt, par⟩ hlen
    match pts, hlen with
    | [], _ => simp [perimeter]
    | [p], _ => simp [perimeter, List.rotate_singleton, hypot_dist]
  · have hrot : ([⟨0, 0⟩, ⟨10, 0⟩] : List Pt).rotate 1 = [⟨10, 0⟩, ⟨0, 0⟩] := by decide
    simp only [perimeter, hrot, List.zip, List.zipWith_cons_cons, List.zipWith_nil,
      List.map_cons, List.map_nil, List.sum_cons, List.sum_nil, hypot_dist]
    norm_num [sqrt_hundred]
  · have hrot : ([⟨0, 0⟩, ⟨10, 0⟩, ⟨10, 10⟩, ⟨0, 10⟩] : List Pt).rotate 1
        = [⟨10, 0⟩, ⟨10, 10⟩, ⟨0, 10⟩, ⟨0, 0⟩] := by decide
    simp only [perimeter, hrot, List.zip, List.zipWith_cons_cons, List.zipWith_nil,
      List.map_cons, List.map_nil, List.sum_cons, List.sum_nil, hypot_dist]
    norm_num [sqrt_hundred]

theorem perimeter_pairs_spec_witness :
    perimeter ⟨[], BorderType.Outer, none⟩ = 0 :=
  perimeter_pairs_spec.2.1 ⟨[], BorderType.Outer, none⟩ (by decide)

/-- Contour 0 of the six-contour example hierarchy (one point (1,1), no parent). -/
def hier0 : Contour := ⟨[⟨1, 1⟩], BorderType.Hole, none⟩

/-- Contour 1 of the example hierarchy: parent 0. -/
def hier1 : Contour := ⟨[⟨2, 2⟩], BorderType.Hole, some 0⟩

/-- Contour 2 of the example hierarchy: parent 1. -/
def hier2 : Contour := ⟨[], BorderType.Hole, some 1⟩

/-- Contour 3 of the example hierarchy (one point (10,10), no parent). -/
def hier3 : Contour := ⟨[⟨10, 10⟩], BorderType.Hole, none⟩

/-- Contour 4 of the example hierarchy: parent 3. -/
def hier4 : Contour := ⟨[], BorderType.Hole, some 3⟩

/-- Contour 5 of the example hierarchy: parent 3. -/
def hier5 : Contour := ⟨[], BorderType.Hole, some 3⟩

/-- The six-contour hierarchy 0→[], 1→parent 0, 2→parent 1, 3→[], 4→parent 3,
5→parent 3. -/
def hier_input : List Contour := [hier0, hier1, hier2, hier3, hier4, hier5]

/-- C4: on the six-contour example hierarchy, `sort_by_direct_children_count_owned`
returns 6 pairs whose counts descend as 2,1,1,0,0,0, with contour 3 first at
count 2, contours 0 and 1 at count 1 in either order, and contours 2, 4, 5
filling the count-0 tail. -/
theorem child_count_ranking_example :
    (sort_by_direct_children_count_owned hier_input).length = 6
    ∧ (sort_by_direct_children_count_owned hier_input).map Prod.snd = [2, 1, 1, 0, 0, 0]
    ∧ (sort_by_direct_children_count_owned hier_input)[0]? = some (hier3, 2)
    ∧ (((sort_by_direct_children_count_owned hier_input)[1]? = some (hier0, 1)
          ∧ (sort_by_direct_children_count_owned hier_input)[2]? = some (hier1, 1))
        ∨ ((sort_by_direct_children_count_owned hier_input)[1]? = some (hier1, 1)
          ∧ (sort_by_direct_children_count_owned hier_input)[2]? = some (hier0, 1)))
    ∧ (((sort_by_direct_children_count_owned hier_input).drop 3).map Prod.fst).Perm
        [hier2, hier4, hier5] := by
  decide

/-- Each entry of the counting fold equals its initial value plus the number
of contours claiming that index as parent; contours whose parent is out of
range change no entry (`List.modify` out of range is the identity). -/
theorem counts_foldl_getElem (l : List Contour) (init : List ℕ) (j : ℕ) (hj : j < init.length) :
    (l.foldl (fun counts contour =>
        match contour.parent with
        | some parent_index => counts.modify (· + 1) parent_index
        | none => counts) init)[j]?
      = some (init.getD j 0 + l.countP fun c => c.parent == some j) := by
  induction l generalizing init with
  | nil =>
      simp [List.getD_eq_getElem?_getD, List.getElem?_eq_getElem hj]
  | cons c tail ih =>
      rw [List.foldl_cons]
      rcases hc : c.parent with _ | p
      · dsimp only
        rw [ih init hj, List.countP_cons]
        simp [hc]
      · dsimp only
        have hlen : j < (init.modify (· + 1) p).length := by
          rw [List.length_modify]; exact hj
        rw [ih (init.modify (· + 1) p) hlen, List.countP_cons]
        have hval : init[j]? = some (init.getD j 0) := by
          rw [List.getD_eq_getElem?_getD, List.getElem?_eq_getElem hj]
          rfl
        have hmod : (init.modify (· + 1) p).getD j 0
            = init.getD j 0 + if p = j then 1 else 0 := by
          rw [List.getD_eq_getElem?_getD, List.getElem?_modify, hval]
          by_cases hpj : p = j <;> simp [hpj]
        rw [hmod]
        by_cases hpj : p = j
        · simp [hc, hpj]
          omega
        · simp [hc, hpj]

/-- Entry `j` of `child_counts` is the number of contours with parent `j`. -/
theorem child_counts_getElem (l : List Contour) (j : ℕ) (hj : j < l.length) :
    (child_counts l)[j]? = some (l.countP fun c => c.parent == some j) := by
  unfold child_counts
  rw [counts_foldl_getElem l _ j (by simpa using hj)]
  congr 1
  rw [List.getD_eq_getElem?_getD, List.getElem?_replicate, if_pos hj]
  simp

/-- C7: the counting pass is bound-checked — every in-range entry counts
exactly the contours naming it as parent (so an out-of-range parent index
contributes to no entry and faults nothing) — and every contour still appears
in the ranked output paired with its own count. -/
theorem child_counts_bound_check :
    (∀ contours : List Contour, ∀ j, j < contours.length →
        (child_counts contours)[j]? = some (contours.countP fun c => c.parent == some j))
    ∧ ∀ contours : List Contour,
        (sort_by_direct_children_count_owned contours).Perm
          (contours.enum.map fun ic => (ic.2, contours.countP fun c => c.parent == some ic.1)) := by
  refine ⟨fun l j hj => child_counts_getElem l j hj, ?_⟩
  intro l
  by_cases hl : l = []
  · subst hl
    simp [sort_by_direct_children_count_owned]
  · unfold sort_by_direct_children_count_owned
    rw [if_neg (by simpa [List.isEmpty_iff] using hl)]
    have hperm := @List.perm_insertionSort (Contour × ℕ) (fun a b => b.2 ≤ a.2) _
      (l.enum.map fun ic => (ic.2, (child_counts l).getD ic.1 0))
    refine hperm.trans ?_
    have heq : (l.enum.map fun ic => (ic.2, (child_counts l).getD ic.1 0))
        = l.enum.map fun ic => (ic.2, l.countP fun c => c.parent == some ic.1) := by
      apply List.map_congr_left
      rintro ⟨i, c⟩ hic
      obtain ⟨hi, -⟩ := List.mem_enum hic
      simp only [Prod.mk.injEq, true_and]
      rw [List.getD_eq_getElem?_getD, child_counts_getElem l i hi]
      rfl
    rw [heq]

theorem child_counts_bound_check_witness :
    0 < (1 : ℕ)
    ∧ (child_counts [⟨[], BorderType.Outer, some 5⟩])[0]? = some 0 :=
  ⟨by decide,
    (child_counts_bound_check.1 [⟨[], BorderType.Outer, some 5⟩] 0 (by decide)).trans
      (by decide)⟩

/-- The scan loop leaves `min_x` as the smaller of the accumulator and the
new point (later updates touch other fields only). -/
theorem scan_step_min_x (acc : Extremes) (p : PtF) :
    (scan_step acc p).min_x = if FQ.lt p.x acc.min_x then p.x else acc.min_x := by
  simp only [scan_step]
  split_ifs <;> rfl

/-- The scan loop leaves `max_x` as the larger of the accumulator and the
new point. -/
theorem scan_step_max_x (acc : Extremes) (p : PtF) :
    (scan_step acc p).max_x = if FQ.lt acc.max_x p.x then p.x else acc.max_x := by
  simp only [scan_step]
  split_ifs <;> rfl

/-- The scan loop leaves `min_y` as the smaller of the accumulator and the
new point. -/
theorem scan_step_min_y (acc : Extremes) (p : PtF) :
    (scan_step acc p).min_y = if FQ.lt p.y acc.min_y then p.y else acc.min_y := by
  simp only [scan_step]
  split_ifs <;> rfl

/-- The scan loop leaves `max_y` as the larger of the accumulator and the
new point. -/
theorem scan_step_max_y (acc : Extremes) (p : PtF) :
    (scan_step acc p).max_y = if FQ.lt acc.max_y p.y then p.y else acc.max_y := by
  simp only [scan_step]
  split_ifs <;> rfl

/-- On finite values, the PartialOrd min-selection is `min`. -/
theorem fq_sel_min (a b : ℚ) :
    (if FQ.lt (.val b) (.val a) then FQ.val b else FQ.val a) = FQ.val (min a b) := by
  simp only [FQ.lt]
  split_ifs with h
  · simp only [decide_eq_true_eq] at h
    rw [min_eq_right h.le]
  · simp only [decide_eq_true_eq, not_lt] at h
    rw [min_eq_left h]

/-- On finite values, the PartialOrd max-selection is `max`. -/
theorem fq_sel_max (a b : ℚ) :
    (if FQ.lt (.val a) (.val b) then FQ.val b else FQ.val a) = FQ.val (max a b) := by
  simp only [FQ.lt]
  split_ifs with h
  · simp only [decide_eq_true_eq] at h
    rw [max_eq_right h.le]
  · simp only [decide_eq_true_eq, not_lt] at h
    rw [max_eq_left h]

/-- On four finite (NaN-free) vertices, the scan computes the componentwise
minima and maxima of the coordinates. -/
theorem scan_extremes_val (p0 p1 p2 p3 : PtQ) :
    scan_extremes p0.toF p1.toF p2.toF p3.toF
      = ⟨.val (min (min (min p0.x p1.x) p2.x) p3.x),
         .val (max (max (max p0.x p1.x) p2.x) p3.x),
         .val (min (min (min p0.y p1.y) p2.y) p3.y),
         .val (max (max (max p0.y p1.y) p2.y) p3.y)⟩ := by
  unfold scan_extremes PtQ.toF
  simp only [List.foldl_cons, List.foldl_nil]
  apply Extremes.ext
  · simp only [scan_step_min_x, scan_step_max_x, scan_step_min_y, scan_step_max_y,
      fq_sel_min, fq_sel_max]
  · simp only [scan_step_min_x, scan_step_max_x, scan_step_min_y, scan_step_max_y,
      fq_sel_min, fq_sel_max]
  · simp only [scan_step_min_x, scan_step_max_x, scan_step_min_y, scan_step_max_y,
      fq_sel_min, fq_sel_max]
  · simp only [scan_step_min_x, scan_step_max_x, scan_step_min_y, scan_step_max_y,
      fq_sel_min, fq_sel_max]

/-- Truncation toward zero is monotone. -/
theorem rat_trunc_mono {a b : ℚ} (hab : a ≤ b) : rat_trunc a ≤ rat_trunc b := by
  rw [rat_trunc_eq, rat_trunc_eq]
  split_ifs with h1 h2 h2
  · exact Int.floor_le_floor hab
  · exact absurd (le_trans h1 hab) h2
  · have hc : ⌈a⌉ ≤ 0 := Int.ceil_le.mpr (by exact_mod_cast (not_le.mp h1).le)
    have hf : (0 : ℤ) ≤ ⌊b⌋ := Int.floor_nonneg.mpr h2
    omega
  · exact Int.ceil_le_ceil hab

/-- When the truncation does not exceed `u32::MAX`, the `to_u32().unwrap_or(0)`
conversion equals truncation with negative values clamped to zero. -/
theorem to_u32_getD_of_lt (q : ℚ) (h : rat_trunc q < 2 ^ 32) :
    (FQ.val q).to_u32.getD 0 = (rat_trunc q).toNat := by
  rw [show (FQ.val q).to_u32
      = if 0 ≤ rat_trunc q ∧ rat_trunc q < 2 ^ 32 then some (rat_trunc q).toNat else none
    from rfl]
  by_cases h0 : 0 ≤ rat_trunc q
  · rw [if_pos ⟨h0, h⟩]
    rfl
  · rw [if_neg (by tauto)]
    push_neg at h0
    simp [Int.toNat_of_nonpos h0.le]

/-- All four coordinates equal to 2^32 (one above `u32::MAX`). -/
def big_pt : PtQ := ⟨4294967296, 0⟩

/-- C5 counterexample: at vertices whose x-coordinate is 2^32 the code yields
the collapsed box (the failed conversion becomes 0), not the truncation-and-
clamp description of the claim. -/
theorem aabb_overflow_counterexample :
    to_axis_aligned_bounding_box big_pt.toF big_pt.toF big_pt.toF big_pt.toF
      ≠ axis_aligned_bounds_claim big_pt big_pt big_pt big_pt := by decide

/-- C5 (amended): provided the truncation of the maximal x and y coordinates
fits in `u32`, `to_axis_aligned_bounding_box` converts the extremes by
truncation toward zero with negative values clamped to 0 and computes width
and height by saturating subtraction. -/
theorem aabb_eq_trunc_clamp (p0 p1 p2 p3 : PtQ)
    (hx : rat_trunc (max (max (max p0.x p1.x) p2.x) p3.x) < 2 ^ 32)
    (hy : rat_trunc (max (max (max p0.y p1.y) p2.y) p3.y) < 2 ^ 32) :
    to_axis_aligned_bounding_box p0.toF p1.toF p2.toF p3.toF
      = axis_aligned_bounds_claim p0 p1 p2 p3 := by
  have hxm : min (min (min p0.x p1.x) p2.x) p3.x ≤ max (max (max p0.x p1.x) p2.x) p3.x :=
    le_trans (le_trans (le_trans (min_le_left _ _) (min_le_left _ _)) (min_le_left _ _))
      (le_trans (le_trans (le_max_left _ _) (le_max_left _ _)) (le_max_left _ _))
  have hym : min (min (min p0.y p1.y) p2.y) p3.y ≤ max (max (max p0.y p1.y) p2.y) p3.y :=
    le_trans (le_trans (le_trans (min_le_left _ _) (min_le_left _ _)) (min_le_left _ _))
      (le_trans (le_trans (le_max_left _ _) (le_max_left _ _)) (le_max_left _ _))
  have hminx : rat_trunc (min (min (min p0.x p1.x) p2.x) p3.x) < 2 ^ 32 :=
    lt_of_le_of_lt (rat_trunc_mono hxm) hx
  have hminy : rat_trunc (min (min (min p0.y p1.y) p2.y) p3.y) < 2 ^ 32 :=
    lt_of_le_of_lt (rat_trunc_mono hym) hy
  unfold to_axis_aligned_bounding_box axis_aligned_bounds_claim
  rw [scan_extremes_val]
  simp only [to_u32_getD_of_lt _ hminx, to_u32_getD_of_lt _ hx,
    to_u32_getD_of_lt _ hminy, to_u32_getD_of_lt _ hy]

/-- First vertex of the negative-span example: (-10, -20). -/
def neg_pt0 : PtQ := ⟨-10, -20⟩

/-- Second vertex of the negative-span example: (50, 30). -/
def neg_pt1 : PtQ := ⟨50, 30⟩

/-- Third vertex of the negative-span example: (50, -20). -/
def neg_pt2 : PtQ := ⟨50, -20⟩

/-- Fourth vertex of the negative-span example: (-10, 30). -/
def neg_pt3 : PtQ := ⟨-10, 30⟩

theorem aabb_eq_trunc_clamp_witness :
    rat_trunc (max (max (max neg_pt0.x neg_pt1.x) neg_pt2.x) neg_pt3.x) < 2 ^ 32
    ∧ rat_trunc (max (max (max neg_pt0.y neg_pt1.y) neg_pt2.y) neg_pt3.y) < 2 ^ 32
    ∧ to_axis_aligned_bounding_box neg_pt0.toF neg_pt1.toF neg_pt2.toF neg_pt3.toF
        = ⟨0, 0, 50, 30⟩ :=
  ⟨by decide, by decide,
    (aabb_eq_trunc_clamp neg_pt0 neg_pt1 neg_pt2 neg_pt3 (by decide) (by decide)).trans
      (by decide)⟩

/-- Vertex with x one above `u32::MAX`, y = 1. -/
def huge0 : PtF := ⟨.val 4294967296, .val 1⟩

/-- Vertex with a large x, y = 2. -/
def huge1 : PtF := ⟨.val 4294967300, .val 2⟩

/-- Vertex with a large x, y = 1. -/
def huge2 : PtF := ⟨.val 4294967297, .val 1⟩

/-- Vertex with a large x, y = 2. -/
def huge3 : PtF := ⟨.val 4294967299, .val 2⟩

/-- C10: the `u32` conversion of an extreme fails exactly on NaN, on values
truncating below 0, and on values truncating above `u32::MAX`; every failed
conversion contributes 0 to the box (position 0, or width/height 0 through
the saturating subtraction); concretely, vertices whose x-coordinates all
exceed `u32::MAX` collapse the box to x = 0 and width = 0 instead of
saturating at the maximal representable value. -/
theorem to_u32_failure_zero :
    (∀ c : FQ, c.to_u32 = none ↔
        c = FQ.nan ∨ ∃ q, c = FQ.val q ∧ (rat_trunc q < 0 ∨ (2 ^ 32 : ℤ) ≤ rat_trunc q))
    ∧ (∀ p0 p1 p2 p3 : PtF,
        ((scan_extremes p0 p1 p2 p3).min_x.to_u32 = none →
            (to_axis_aligned_bounding_box p0 p1 p2 p3).x = 0)
        ∧ ((scan_extremes p0 p1 p2 p3).max_x.to_u32 = none →
            (to_axis_aligned_bounding_box p0 p1 p2 p3).width = 0)
        ∧ ((scan_extremes p0 p1 p2 p3).min_y.to_u32 = none →
            (to_axis_aligned_bounding_box p0 p1 p2 p3).y = 0)
        ∧ ((scan_extremes p0 p1 p2 p3).max_y.to_u32 = none →
            (to_axis_aligned_bounding_box p0 p1 p2 p3).height = 0))
    ∧ to_axis_aligned_bounding_box huge0 huge1 huge2 huge3 = ⟨0, 1, 0, 1⟩ := by
  refine ⟨?_, ?_, by decide⟩
  · intro c
    cases c with
    | nan => simp [FQ.to_u32]
    | val q =>
        rw [show (FQ.val q).to_u32
            = if 0 ≤ rat_trunc q ∧ rat_trunc q < 2 ^ 32 then some (rat_trunc q).toNat else none
          from rfl]
        by_cases h : 0 ≤ rat_trunc q ∧ rat_trunc q < 2 ^ 32
        · simp only [if_pos h]
          constructor
          · intro hcon
            cases hcon
          · rintro (hnan | ⟨q', hq', hbad⟩)
            · cases hnan
            · cases hq'
              omega
        · simp only [if_neg h]
          constructor
          · intro _
            refine Or.inr ⟨q, rfl, ?_⟩
            omega
          · intro _
            trivial
  · intro p0 p1 p2 p3
    refine ⟨?_, ?_, ?_, ?_⟩ <;> intro h <;>
      simp [to_axis_aligned_bounding_box, h]

theorem to_u32_failure_zero_witness :
    (FQ.val (-5)).to_u32 = none :=
  (to_u32_failure_zero.1 (FQ.val (-5))).mpr (Or.inr ⟨-5, rfl, Or.inl (by decide)⟩)
